import Mathlib

/-!
Shallow embedding of `src/vector_bool.cpp`: a micro-benchmark comparing a
byte-per-element boolean store against a bit-packed boolean store, with a
pre-faulting allocator, a scoped timer and a seeded random workload.

Machine integers are modelled as `Nat` with explicit reduction modulo `2^w`
where the C++ code can wrap (`size_t` is 64 bits, `uint8_t` is 8 bits).
-/

namespace VectorBool

/-- Value of `std::numeric_limits<std::size_t>::max()` on the 64-bit
target: `2^64 - 1`. -/
def SIZE_MAX : Nat := 2 ^ 64 - 1

/-- Constant `ITEM_COUNT` from `main` (line 69). -/
def ITEM_COUNT : Nat := 8096

/-- Constant `ACCESS_COUNT` from `main` (line 70). -/
def ACCESS_COUNT : Nat := 20000000

/-- The two failure kinds of the allocator: the overflow guard and a failed
`std::malloc` both throw `std::bad_alloc`; the spec distinguishes them as
`AllocationOverflow` and `OutOfMemory`. -/
inductive AllocError where
  | allocationOverflow
  | outOfMemory
deriving DecidableEq, Repr

/-- Model of `std::memset(p, v, len)`: bytes `0 ≤ i < len` of the region become `v`,
bytes beyond are untouched.  Memory regions are byte-indexed functions. -/
def memset (mem : Nat → Nat) (v : Nat) (len : Nat) : Nat → Nat :=
  fun i => if i < len then v else mem i

/-- Model of `PreFaultAllocator<T>::allocate(n)` (lines 37–52), with
`elemSize = sizeof(T)`.  The system allocator `std::malloc` is a parameter:
given a byte count it returns the (uninitialized) contents of a fresh region,
or `none` on exhaustion.  The guard `n > SIZE_MAX / sizeof(T)` throws
`bad_alloc` (spec: `AllocationOverflow`); otherwise
`bytes_to_allocate = n * sizeof(T)` is computed in `size_t` arithmetic
(hence the reduction mod `SIZE_MAX + 1 = 2^64`), `malloc` is called, and on
success the whole region is zeroed by `memset` (the pre-fault). -/
def allocate (elemSize : Nat) (malloc : Nat → Option (Nat → Nat)) (n : Nat) :
    Except AllocError (Nat → Nat) :=
  if SIZE_MAX / elemSize < n then
    .error .allocationOverflow
  else
    let bytes_to_allocate := (n * elemSize) % (SIZE_MAX + 1)
    match malloc bytes_to_allocate with
    | some p => .ok (memset p 0 bytes_to_allocate)
    | none => .error .outOfMemory

/-- When the overflow guard passes, the `size_t` product does not wrap:
`n * elemSize` computed mod `2^64` is the exact mathematical product. -/
theorem bytes_no_wrap (elemSize n : Nat) (h : ¬ SIZE_MAX / elemSize < n) :
    (n * elemSize) % (SIZE_MAX + 1) = n * elemSize := by
  apply Nat.mod_eq_of_lt
  have hn : n ≤ SIZE_MAX / elemSize := Nat.le_of_not_lt h
  have : n * elemSize ≤ SIZE_MAX / elemSize * elemSize :=
    Nat.mul_le_mul_right _ hn
  have hdiv : SIZE_MAX / elemSize * elemSize ≤ SIZE_MAX := Nat.div_mul_le_self _ _
  omega

/-- C1: every byte of a successfully returned region reads as zero, over the
whole `n * elemSize`-byte extent. -/
theorem allocate_prefaults_zero (elemSize n : Nat)
    (malloc : Nat → Option (Nat → Nat)) (buf : Nat → Nat)
    (h : allocate elemSize malloc n = .ok buf) :
    ∀ i, i < n * elemSize → buf i = 0 := by
  intro i hi
  unfold allocate at h
  by_cases hg : SIZE_MAX / elemSize < n
  · simp [hg] at h
  · rw [if_neg hg] at h
    rcases hm : malloc ((n * elemSize) % (SIZE_MAX + 1)) with _ | p
    · simp [hm] at h
    · simp only [hm] at h
      cases h
      have hw := bytes_no_wrap elemSize n hg
      unfold memset
      rw [hw]
      simp [hi]

/-- Witness for C1 at `elemSize = 1`, `n = 3`, a `malloc` that returns a
region filled with the garbage byte 37: byte 2 of the returned buffer is 0. -/
theorem allocate_prefaults_zero_witness :
    memset (fun _ => 37) 0 ((3 * 1) % (SIZE_MAX + 1)) 2 = 0 :=
  allocate_prefaults_zero 1 3 (fun _ => some (fun _ => 37))
    (memset (fun _ => 37) 0 ((3 * 1) % (SIZE_MAX + 1))) rfl 2 (by decide)

/-- C2: for any element size ≥ 1 the guard `n > SIZE_MAX / sizeof(T)` raises
`AllocationOverflow` exactly when the exact product `n * elemSize` exceeds
`SIZE_MAX`; and when it does not raise, the `size_t` byte count handed to
`malloc` is the exact product (no truncation). -/
theorem allocate_overflow_iff (elemSize n : Nat) (h : 1 ≤ elemSize)
    (malloc : Nat → Option (Nat → Nat)) :
    ((allocate elemSize malloc n = .error .allocationOverflow) ↔
      SIZE_MAX < n * elemSize)
    ∧ (¬ SIZE_MAX < n * elemSize →
        (n * elemSize) % (SIZE_MAX + 1) = n * elemSize) := by
  have key : SIZE_MAX / elemSize < n ↔ SIZE_MAX < n * elemSize :=
    Nat.div_lt_iff_lt_mul h
  refine ⟨⟨?_, ?_⟩, ?_⟩
  · intro he
    by_cases hg : SIZE_MAX / elemSize < n
    · exact key.mp hg
    · exfalso
      rcases hm : malloc ((n * elemSize) % (SIZE_MAX + 1)) with _ | p
      · simp [allocate, hg, hm] at he
      · simp [allocate, hg, hm] at he
  · intro hp
    have hg := key.mpr hp
    simp [allocate, hg]
  · intro hnp
    exact bytes_no_wrap elemSize n (fun hg => hnp (key.mp hg))

/-- Witness for C2 at `elemSize = 1`, `n = 5`, an always-succeeding
`malloc`. -/
theorem allocate_overflow_iff_witness :
    ((allocate 1 (fun _ => some fun _ => 0) 5 = .error .allocationOverflow) ↔
      SIZE_MAX < 5 * 1)
    ∧ (¬ SIZE_MAX < 5 * 1 → (5 * 1) % (SIZE_MAX + 1) = 5 * 1) :=
  allocate_overflow_iff 1 5 (by decide) (fun _ => some fun _ => 0)

/-! ### Workload generation (`main`, lines 74–79) -/

/-- Modelled from the spec: `std::mt19937` is a seeded pseudo-random source
whose implementation is outside this repository.  It is modelled as a
deterministic 64-bit state machine seeded by `seed`: each step updates the
state and emits a 32-bit output word. -/
def prngNext (s : Nat) : Nat × Nat :=
  let s' := (6364136223846793005 * s + 1442695040888963407) % (SIZE_MAX + 1)
  (s' / 2 ^ 32, s')

/-- Modelled from the spec: `std::uniform_int_distribution<size_t>(lo, hi)`
(implementation outside this repository) maps a raw generator word to a value
in the closed range `[lo, hi]`. -/
def uniformIntDistrib (lo hi r : Nat) : Nat :=
  lo + r % (hi - lo + 1)

/-- The generation loop (lines 77–79): `k` remaining iterations, threading
the generator state `s`; each entry is `distrib(gen)` with range `[0, hi]`. -/
def genIndicesAux : Nat → Nat → Nat → List Nat
  | 0, _, _ => []
  | k + 1, hi, s =>
    let p := prngNext s
    uniformIntDistrib 0 hi p.1 :: genIndicesAux k hi p.2

/-- Workload generation (lines 74–79): `std::uniform_int_distribution
<size_t> distrib(0, ITEM_COUNT - 1)` where `ITEM_COUNT - 1` is computed in
`size_t` arithmetic (so `itemCount = 0` wraps to `SIZE_MAX`), then
`accessCount` draws from the seeded generator. -/
def generateIndices (itemCount accessCount seed : Nat) : List Nat :=
  genIndicesAux accessCount ((itemCount + SIZE_MAX) % (SIZE_MAX + 1)) seed

theorem genIndicesAux_length (k hi s : Nat) :
    (genIndicesAux k hi s).length = k := by
  induction k generalizing s with
  | zero => rfl
  | succ k ih => simp [genIndicesAux, ih]

theorem genIndicesAux_mem_lt (k hi s : Nat) :
    ∀ x ∈ genIndicesAux k hi s, x < hi + 1 := by
  induction k generalizing s with
  | zero => intro x hx; simp [genIndicesAux] at hx
  | succ k ih =>
    intro x hx
    simp only [genIndicesAux, List.mem_cons] at hx
    rcases hx with hx | hx
    · subst hx
      have hm : (prngNext s).1 % (hi + 1) < hi + 1 :=
        Nat.mod_lt _ (by omega)
      simp only [uniformIntDistrib, Nat.sub_zero]
      omega
    · exact ih _ x hx

/-- For `1 ≤ itemCount ≤ SIZE_MAX`, the `size_t` expression
`ITEM_COUNT - 1` is the exact `itemCount - 1`. -/
theorem wrapped_hi_eq (itemCount : Nat) (h1 : 1 ≤ itemCount)
    (h2 : itemCount ≤ SIZE_MAX) :
    (itemCount + SIZE_MAX) % (SIZE_MAX + 1) = itemCount - 1 := by
  have hge : SIZE_MAX + 1 ≤ itemCount + SIZE_MAX := by omega
  rw [Nat.mod_eq_sub_mod hge]
  have heq : itemCount + SIZE_MAX - (SIZE_MAX + 1) = itemCount - 1 := by omega
  rw [heq, Nat.mod_eq_of_lt (by omega)]

/-- C3: for every `itemCount` with `1 ≤ itemCount ≤ SIZE_MAX`, every
`accessCount` and every seed, the generated workload has exactly
`accessCount` entries, each strictly below `itemCount`. -/
theorem generateIndices_length_and_range (itemCount accessCount seed : Nat)
    (h1 : 1 ≤ itemCount) (h2 : itemCount ≤ SIZE_MAX) :
    (generateIndices itemCount accessCount seed).length = accessCount
    ∧ ∀ x ∈ generateIndices itemCount accessCount seed, x < itemCount := by
  unfold generateIndices
  rw [wrapped_hi_eq itemCount h1 h2]
  refine ⟨genIndicesAux_length _ _ _, ?_⟩
  intro x hx
  have := genIndicesAux_mem_lt accessCount (itemCount - 1) seed x hx
  omega

/-- Witness for C3 at `itemCount = 8`, `accessCount = 4`, `seed = 2026`. -/
theorem generateIndices_length_and_range_witness :
    (generateIndices 8 4 2026).length = 4
    ∧ ∀ x ∈ generateIndices 8 4 2026, x < 8 :=
  generateIndices_length_and_range 8 4 2026 (by decide)
    (by unfold SIZE_MAX; omega)

/-- C8: workload generation is a deterministic function of
`(itemCount, accessCount, seed)`: two runs with equal seeds (and equal
counts) produce identical index sequences. -/
theorem generateIndices_deterministic (itemCount accessCount s1 s2 : Nat)
    (h : s1 = s2) :
    generateIndices itemCount accessCount s1
      = generateIndices itemCount accessCount s2 := by
  rw [h]

/-- Witness for C8 at `itemCount = 8096`, `accessCount = 5`, seed 12345. -/
theorem generateIndices_deterministic_witness :
    generateIndices 8096 5 12345 = generateIndices 8096 5 12345 :=
  generateIndices_deterministic 8096 5 12345 12345 rfl

/-- C7 counterexample: at `itemCount = 0` the generation loop does not fail
and signals nothing: `ITEM_COUNT - 1` wraps to `SIZE_MAX` in `size_t`
arithmetic, the distribution ranges over all of `size_t`, and the loop still
produces a full-length index sequence — whose entries cannot satisfy the
domain bound `x < 0`. -/
theorem generateIndices_zero_domain_no_failure :
    (generateIndices 0 2 1).length = 2
    ∧ ¬ (∀ x ∈ generateIndices 0 2 1, x < 0) := by
  constructor
  · rfl
  · decide

/-- C7 amended: workload generation never fails for any `itemCount` — there
is no `itemCount == 0` check and no `InvalidDomain` signal; the loop always
yields exactly `accessCount` indices. -/
theorem generateIndices_total (itemCount accessCount seed : Nat) :
    (generateIndices itemCount accessCount seed).length = accessCount :=
  genIndicesAux_length _ _ _

/-! ### Scoped timer (`Timer`, lines 11–25)

The destructor reads the clock, computes the elapsed nanoseconds, divides by
`1e6` and prints one line.  Clock instants are nanosecond counts (`Int`, as
`duration_cast<nanoseconds>(...).count()` is a signed count); the printed
millisecond value is modelled as a rational.  C++ guarantees the destructor
runs once on every scope exit path, normal or exceptional; a timed scope is
therefore modelled as a body (its output lines plus a normal result or an
exception) followed unconditionally by the single report line. -/

/-- Elapsed milliseconds `duration / 1e6` of `Timer::~Timer` (lines 17–18). -/
def elapsedMs (startNs endNs : Int) : Rat :=
  ((endNs - startNs : Int) : Rat) / 1000000

/-- The one line printed by `Timer::~Timer` (line 19). -/
def timerReportLine (label : String) (startNs endNs : Int) : String :=
  "[" ++ label ++ "] took " ++ toString (elapsedMs startNs endNs) ++ " ms."

/-- A timed scope: the timer is constructed at `startNs`, the body runs
(emitting `body.1` and finishing normally or exceptionally as `body.2`),
and at scope exit the destructor fires at `endNs`, appending exactly one
report line regardless of how the body finished. -/
def runTimedScope {ε α : Type} (label : String) (startNs endNs : Int)
    (body : List String × Except ε α) : List String × Except ε α :=
  (body.1 ++ [timerReportLine label startNs endNs], body.2)

/-- C6: a timer scope appends exactly one report line — on every exit path,
the body's own outcome (normal or exceptional) being preserved and
irrelevant to the emission — and under a monotonic clock
(`startNs ≤ endNs`) the reported millisecond value is ≥ 0, including for a
zero-operation body. -/
theorem timer_one_report_nonneg {ε α : Type} (label : String)
    (startNs endNs : Int) (body : List String × Except ε α)
    (hmono : startNs ≤ endNs) :
    (runTimedScope label startNs endNs body).1
      = body.1 ++ [timerReportLine label startNs endNs]
    ∧ (runTimedScope label startNs endNs body).1.length = body.1.length + 1
    ∧ 0 ≤ elapsedMs startNs endNs
    ∧ (runTimedScope label startNs endNs body).2 = body.2 := by
  refine ⟨rfl, by simp [runTimedScope], ?_, rfl⟩
  unfold elapsedMs
  apply div_nonneg
  · exact_mod_cast Int.sub_nonneg.mpr hmono
  · norm_num

/-- Witness for C6: a zero-duration scope (`startNs = endNs = 5`) around a
body that emits nothing and exits exceptionally. -/
theorem timer_one_report_nonneg_witness :
    (runTimedScope "Case 1: std::vector<bool>" 5 5
        (([], Except.error ()) : List String × Except Unit Unit)).1
      = [] ++ [timerReportLine "Case 1: std::vector<bool>" 5 5]
    ∧ (runTimedScope "Case 1: std::vector<bool>" 5 5
        (([], Except.error ()) : List String × Except Unit Unit)).1.length
        = ([] : List String).length + 1
    ∧ 0 ≤ elapsedMs 5 5
    ∧ (runTimedScope "Case 1: std::vector<bool>" 5 5
        (([], Except.error ()) : List String × Except Unit Unit)).2
        = (([], Except.error ()) : List String × Except Unit Unit).2 :=
  timer_one_report_nonneg "Case 1: std::vector<bool>" 5 5
    (([], Except.error ()) : List String × Except Unit Unit) (le_refl 5)

/-! ### Raw byte-per-element store (`main`, lines 86–101)

The buffer from `allocate(ITEM_COUNT)` is all-zero (C1); the access loop
does `raw_mem[idx] = 1 - raw_mem[idx]`.  The `uint8_t` cell is promoted to
`int`, subtracted from 1, and truncated back to 8 bits on store; memory is a
byte-indexed function whose stored values are already reduced mod 256. -/

/-- The all-zero memory produced by the pre-faulting allocator. -/
def zeroMem : Nat → Nat := fun _ => 0

/-- Model of `(uint8_t)(1 - v)` for a cell value `v < 256`: `1 - v` in `int`
arithmetic, reduced mod 256 on the store (for `v ∈ [0, 255]`,
`1 - v ≡ 257 - v (mod 256)` with `257 - v ≥ 0`). -/
def u8toggle (v : Nat) : Nat := (257 - v % 256) % 256

/-- One iteration of the raw loop (line 95): `raw_mem[idx] = 1 - raw_mem[idx]`. -/
def rawStep (m : Nat → Nat) (idx : Nat) : Nat → Nat :=
  fun j => if j = idx then u8toggle (m idx) else m j

/-- The raw access loop (lines 93–97) over a workload. -/
def rawRun (indices : List Nat) (m : Nat → Nat) : Nat → Nat :=
  indices.foldl rawStep m

/-! ### Packed boolean store (`std::vector<bool>`, lines 104–115)

Modelled from the spec: `std::vector<bool>`'s packed representation is
library code outside this repository.  Per the spec, flag `i` lives in block
`i / w` at intra-block offset `i % w` for a fixed block width `w ≥ 1`;
reading extracts that bit, writing read-modify-writes the one containing
block (`|= mask` to set, `&= ~mask` to clear, the complement taken within
the `w`-bit block). -/

/-- Read `getFlag(i)`: extract bit `i % w` of block `i / w`. -/
def getFlag (w : Nat) (blocks : Nat → Nat) (i : Nat) : Bool :=
  (blocks (i / w)).testBit (i % w)

/-- Write `setFlag(i, b)`: read-modify-write of block `i / w` only. -/
def setFlag (w : Nat) (blocks : Nat → Nat) (i : Nat) (b : Bool) : Nat → Nat :=
  fun j =>
    if j = i / w then
      if b then blocks (i / w) ||| 2 ^ (i % w)
      else blocks (i / w) &&& ((2 ^ w - 1) ^^^ 2 ^ (i % w))
    else blocks j

/-- One iteration of the packed loop (line 112):
`bool_vec[idx] = !bool_vec[idx]`. -/
def packedStep (w : Nat) (blocks : Nat → Nat) (idx : Nat) : Nat → Nat :=
  setFlag w blocks idx (!(getFlag w blocks idx))

/-- The packed access loop (lines 110–114) over a workload. -/
def packedRun (w : Nat) (indices : List Nat) (blocks : Nat → Nat) : Nat → Nat :=
  indices.foldl (packedStep w) blocks

/-- The all-zero block array of `vector<bool>(ITEM_COUNT)` (value
initialization, and the allocator pre-zeroes the blocks). -/
def zeroBlocks : Nat → Nat := fun _ => 0

theorem getFlag_setFlag_self (w : Nat) (hw : 1 ≤ w) (blocks : Nat → Nat)
    (i : Nat) (b : Bool) : getFlag w (setFlag w blocks i b) i = b := by
  have hk : i % w < w := Nat.mod_lt _ (by omega)
  cases b with
  | true =>
    simp [getFlag, setFlag, Nat.testBit_or, Nat.testBit_two_pow]
  | false =>
    simp [getFlag, setFlag, Nat.testBit_and, Nat.testBit_xor,
      Nat.testBit_two_pow_sub_one, Nat.testBit_two_pow, hk]

theorem getFlag_setFlag_ne (w : Nat) (hw : 1 ≤ w) (blocks : Nat → Nat)
    (i j : Nat) (b : Bool) (hne : j ≠ i) :
    getFlag w (setFlag w blocks i b) j = getFlag w blocks j := by
  unfold getFlag setFlag
  by_cases hb : j / w = i / w
  · have hoff : i % w ≠ j % w := by
      intro he
      apply hne
      have h1 : w * (j / w) + j % w = j := Nat.div_add_mod j w
      rw [hb, ← he] at h1
      rw [← h1]
      exact Nat.div_add_mod i w
    have hjw : j % w < w := Nat.mod_lt _ (by omega)
    cases b with
    | true =>
      simp [hb, Nat.testBit_or, Nat.testBit_two_pow, hoff]
    | false =>
      simp [hb, Nat.testBit_and, Nat.testBit_xor,
        Nat.testBit_two_pow_sub_one, Nat.testBit_two_pow, hjw, hoff]
  · rw [if_neg hb]

/-- C5: for any fixed block width `w ≥ 1` and any flag index, the packed
store round-trips both written values, and a write leaves every other
flag — sibling flags in the same block included — unchanged. -/
theorem packed_set_get_frame (w : Nat) (hw : 1 ≤ w) (blocks : Nat → Nat)
    (i : Nat) :
    getFlag w (setFlag w blocks i true) i = true
    ∧ getFlag w (setFlag w blocks i false) i = false
    ∧ ∀ (b : Bool) (j : Nat), j ≠ i →
        getFlag w (setFlag w blocks i b) j = getFlag w blocks j :=
  ⟨getFlag_setFlag_self w hw blocks i true,
   getFlag_setFlag_self w hw blocks i false,
   fun b j hj => getFlag_setFlag_ne w hw blocks i j b hj⟩

/-- Witness for C5 at `w = 8`, `i = 3`, all-zero blocks: setting then
reading flag 3, and the frame property instanced at sibling flag 4. -/
theorem packed_set_get_frame_witness :
    getFlag 8 (setFlag 8 (fun _ => 0) 3 true) 3 = true
    ∧ getFlag 8 (setFlag 8 (fun _ => 0) 3 true) 4 = getFlag 8 (fun _ => 0) 4 :=
  ⟨(packed_set_get_frame 8 (by decide) (fun _ => 0) 3).1,
   (packed_set_get_frame 8 (by decide) (fun _ => 0) 3).2.2 true 4 (by decide)⟩

theorem rawStep_mem01 (m : Nat → Nat) (idx : Nat)
    (hm : ∀ q, m q = 0 ∨ m q = 1) :
    ∀ q, rawStep m idx q = 0 ∨ rawStep m idx q = 1 := by
  intro q
  unfold rawStep
  by_cases h : q = idx
  · rw [if_pos h]
    rcases hm idx with h0 | h0 <;> rw [h0]
    · right; decide
    · left; decide
  · rw [if_neg h]
    exact hm q

theorem rawRun_parity (indices : List Nat) (m : Nat → Nat)
    (hm : ∀ q, m q = 0 ∨ m q = 1) (p : Nat) :
    rawRun indices m p
      = if indices.count p % 2 = 1 then 1 - m p else m p := by
  induction indices generalizing m with
  | nil => simp [rawRun]
  | cons idx rest ih =>
    have hm' := rawStep_mem01 m idx hm
    have hfold : rawRun (idx :: rest) m = rawRun rest (rawStep m idx) := rfl
    rw [hfold, ih (rawStep m idx) hm']
    by_cases hpi : idx = p
    · subst hpi
      have hstep : rawStep m idx idx = 1 - m idx := by
        unfold rawStep
        rw [if_pos rfl]
        rcases hm idx with h0 | h0 <;> rw [h0] <;> decide
      rw [hstep, List.count_cons_self]
      rcases hm idx with h0 | h0 <;> rw [h0] <;>
        by_cases hc : rest.count idx % 2 = 1
      · rw [if_pos hc, if_neg (by omega)]
      · rw [if_neg hc, if_pos (by omega)]
      · rw [if_pos hc, if_neg (by omega)]
      · rw [if_neg hc, if_pos (by omega)]
    · have hne : rawStep m idx p = m p := by
        unfold rawStep
        rw [if_neg (fun h => hpi h.symm)]
      rw [hne, List.count_cons_of_ne (fun h => hpi h.symm)]

/-- C10: in the raw case the buffer starts all-zero and, at every point of
the access loop (after any prefix of the workload), every byte is 0 or 1:
each `raw_mem[idx] = 1 - raw_mem[idx]` update preserves membership in
`{0, 1}`. -/
theorem raw_bytes_zero_or_one (indices pre suf : List Nat) (p : Nat)
    (hsplit : indices = pre ++ suf) :
    zeroMem p = 0
    ∧ (rawRun pre zeroMem p = 0 ∨ rawRun pre zeroMem p = 1) := by
  refine ⟨rfl, ?_⟩
  rw [rawRun_parity pre zeroMem (fun _ => Or.inl rfl) p]
  by_cases hc : pre.count p % 2 = 1
  · rw [if_pos hc]; right; rfl
  · rw [if_neg hc]; left; rfl

/-- Witness for C10 at the scenario workload split `[0, 1] ++ [0, 3]`,
byte 0. -/
theorem raw_bytes_zero_or_one_witness :
    zeroMem 0 = 0
    ∧ (rawRun [0, 1] zeroMem 0 = 0 ∨ rawRun [0, 1] zeroMem 0 = 1) :=
  raw_bytes_zero_or_one [0, 1, 0, 3] [0, 1] [0, 3] 0 rfl

theorem packedRun_parity (w : Nat) (hw : 1 ≤ w) (indices : List Nat)
    (blocks : Nat → Nat) (p : Nat) :
    getFlag w (packedRun w indices blocks) p
      = if indices.count p % 2 = 1 then !(getFlag w blocks p)
        else getFlag w blocks p := by
  induction indices generalizing blocks with
  | nil => simp [packedRun]
  | cons idx rest ih =>
    have hfold : packedRun w (idx :: rest) blocks
        = packedRun w rest (packedStep w blocks idx) := rfl
    rw [hfold, ih (packedStep w blocks idx)]
    by_cases hpi : idx = p
    · subst hpi
      have hstep : getFlag w (packedStep w blocks idx) idx
          = !(getFlag w blocks idx) :=
        getFlag_setFlag_self w hw blocks idx _
      rw [hstep, List.count_cons_self]
      by_cases hc : rest.count idx % 2 = 1
      · rw [if_pos hc, if_neg (by omega)]
        exact Bool.not_not _
      · rw [if_neg hc, if_pos (by omega)]
    · have hne : getFlag w (packedStep w blocks idx) p
          = getFlag w blocks p :=
        getFlag_setFlag_ne w hw blocks idx p _ (fun h => hpi h.symm)
      rw [hne, List.count_cons_of_ne (fun h => hpi h.symm)]

/-- C9: for any workload whose entries lie in `[0, ITEM_COUNT)` and any
block width `w ≥ 1`, the raw byte loop and the packed loop, both starting
from the pre-faulted all-zero stores, agree on the final logical state of
every position `p < ITEM_COUNT`, and that state is true exactly when `p`
occurs an odd number of times in the workload. -/
theorem raw_packed_equiv (w : Nat) (hw : 1 ≤ w) (indices : List Nat)
    (hin : ∀ idx ∈ indices, idx < ITEM_COUNT) (p : Nat)
    (hp : p < ITEM_COUNT) :
    ((rawRun indices zeroMem p ≠ 0)
        ↔ getFlag w (packedRun w indices zeroBlocks) p = true)
    ∧ ((rawRun indices zeroMem p ≠ 0) ↔ indices.count p % 2 = 1)
    ∧ (getFlag w (packedRun w indices zeroBlocks) p = true
        ↔ indices.count p % 2 = 1) := by
  have hr := rawRun_parity indices zeroMem (fun _ => Or.inl rfl) p
  have hpk := packedRun_parity w hw indices zeroBlocks p
  have hz : getFlag w zeroBlocks p = false := by
    simp [getFlag, zeroBlocks]
  rw [hz] at hpk
  have hraw : (rawRun indices zeroMem p ≠ 0) ↔ indices.count p % 2 = 1 := by
    rw [hr]
    by_cases hc : indices.count p % 2 = 1
    · rw [if_pos hc]
      simp [zeroMem, hc]
    · rw [if_neg hc]
      simp [zeroMem, hc]
  have hpck : getFlag w (packedRun w indices zeroBlocks) p = true
      ↔ indices.count p % 2 = 1 := by
    rw [hpk]
    by_cases hc : indices.count p % 2 = 1
    · rw [if_pos hc]
      simp [hc]
    · rw [if_neg hc]
      simp [hc]
  exact ⟨hraw.trans hpck.symm, hraw, hpck⟩

/-- Witness for C9 at `w = 64`, the scenario workload `[0, 1, 0, 3]`,
position 1. -/
theorem raw_packed_equiv_witness :
    ((rawRun [0, 1, 0, 3] zeroMem 1 ≠ 0)
        ↔ getFlag 64 (packedRun 64 [0, 1, 0, 3] zeroBlocks) 1 = true)
    ∧ ((rawRun [0, 1, 0, 3] zeroMem 1 ≠ 0)
        ↔ ([0, 1, 0, 3] : List Nat).count 1 % 2 = 1)
    ∧ (getFlag 64 (packedRun 64 [0, 1, 0, 3] zeroBlocks) 1 = true
        ↔ ([0, 1, 0, 3] : List Nat).count 1 % 2 = 1) :=
  raw_packed_equiv 64 (by decide) [0, 1, 0, 3] (by decide) 1 (by decide)

/-- C4: on the scenario workload `[0, 1, 0, 3]` over 8 items, starting from
the all-false stores, the raw byte store and the packed store (block width
64, as in `vector<bool>`'s word-sized blocks) reach identical final logical
states, namely true exactly at positions 1 and 3. -/
theorem scenario_final_state :
    ((List.range 8).all fun p =>
        (decide (rawRun [0, 1, 0, 3] zeroMem p ≠ 0)
            == getFlag 64 (packedRun 64 [0, 1, 0, 3] zeroBlocks) p)
        && (getFlag 64 (packedRun 64 [0, 1, 0, 3] zeroBlocks) p
            == [false, true, false, true, false, false, false, false].getD p false))
      = true := by decide

end VectorBool
